import Mathlib

/-!
# Verification of the Bonzi-Clone desktop companion

Shallow embedding of the two source files of the repository:

* `src/tools/blue_to_alpha.py` — the chroma-key extractor (auto key
  detection, distance-based alpha feathering, batch folder processing);
* `src/main.py` — the animation/behavior engine of the `Buddy` widget
  (`play`, `tick_anim`, `schedule_next_action`, `do_random_action`),
  the frame store (`load_frames`) and the pointer-drag interaction.

Machine integers of the source are modelled as `Nat`/`Int`.  The source
computes the chroma distance with floating-point `math.sqrt`; the model
works with the exact squared distance and integer square roots, and
bridge lemmas relate those to the real-number formulas
(`Real.sqrt`, `Int.floor`, `round`) that the float code approximates.
-/

namespace BonziClone

/-! ## Chroma-key extractor (`src/tools/blue_to_alpha.py`) -/

/-- An RGBA pixel (channel values 0..255 in the source). -/
structure RGBA where
  r : Nat
  g : Nat
  b : Nat
  a : Nat
deriving DecidableEq, Repr

/-- An RGB key colour, as returned by `auto_key`. -/
structure RGB where
  r : Nat
  g : Nat
  b : Nat
deriving DecidableEq, Repr

/-- `THRESH` tuning knob of `blue_to_alpha.py`: distance below this
becomes fully transparent. -/
def THRESH : Nat := 35

/-- `SOFT` tuning knob of `blue_to_alpha.py`: feather range above
`THRESH`. -/
def SOFT : Nat := 40

/-- Squared Euclidean RGB distance.  The source's
`dist rgb key = math.sqrt ((r-kr)**2 + (g-kg)**2 + (b-kb)**2)` is the
real square root of this quantity, so the source's comparisons
`d <= 35` and `d < 75` are exactly `distSq ≤ 1225` and `distSq < 5625`
(`sqrt_le_iff_sq` / `le_sqrt_iff_sq` below). -/
def distSq (p : RGBA) (key : RGB) : Nat :=
  ((p.r : Int) - key.r).natAbs ^ 2
    + ((p.g : Int) - key.g).natAbs ^ 2
    + ((p.b : Int) - key.b).natAbs ^ 2

/-- The feather alpha of `blue_to_alpha.py`:
`new_a = int(255 * ((d - THRESH) / SOFT))` with `d = sqrt sq`.
Python's `int` truncates toward zero; on the feather band the value is
nonnegative, so it is the floor `⌊255 * (√sq - 35) / 40⌋`.  In exact
integer arithmetic that is `(⌊255·√sq⌋ - 8925) / 40` with
`⌊255·√sq⌋ = Nat.sqrt (65025 * sq)` (since `65025 = 255²` and
`8925 = 255·35`); `featherAlpha_eq_floor` proves the equivalence. -/
def featherAlpha (sq : Nat) : Nat :=
  (Nat.sqrt (65025 * sq) - 8925) / 40

/-- One pixel of the loop body of `blue_to_alpha`:
`d <= THRESH` → alpha 0; `THRESH < d < THRESH + SOFT` → feathered alpha
`min a new_a`; otherwise keep as-is.  The float comparisons on
`d = sqrt (distSq)` are rendered on the exact squared distance. -/
def blue_to_alpha_pixel (key : RGB) (p : RGBA) : RGBA :=
  let sq := distSq p key
  if sq ≤ 1225 then { p with a := 0 }
  else if sq < 5625 then { p with a := min p.a (featherAlpha sq) }
  else p

/-- `blue_to_alpha img key`: the per-pixel transform applied to every
pixel of the (already RGBA-converted) image, row by row. -/
def blue_to_alpha (key : RGB) (img : List (List RGBA)) : List (List RGBA) :=
  img.map (fun row => row.map (blue_to_alpha_pixel key))

/-- Modelled from the spec's words for claim C2: the spec asserts the
feather alpha is `round(255 * (distance - 35) / 40)` (rounding, not the
source's truncation).  As an exact integer computation,
`round x = ⌊x + 1/2⌋` turns into `(⌊510·√sq⌋ - 17810) / 80` with
`⌊510·√sq⌋ = Nat.sqrt (260100 * sq)` (`260100 = 510²`,
`17810 = 510·35 - 40`); `featherAlphaSpecRound_eq_round` proves the
equivalence. -/
def featherAlphaSpecRound (sq : Nat) : Nat :=
  (Nat.sqrt (260100 * sq) - 17810) / 80

/-! ### Bridge lemmas: integer arithmetic vs the real formulas -/

/-- `√sq ≤ c ↔ sq ≤ c²` for naturals: the source's float comparison
`d <= c` matches the squared-distance comparison of the model. -/
lemma sqrt_le_iff_sq (sq c : Nat) : Real.sqrt sq ≤ c ↔ sq ≤ c ^ 2 := by
  rw [Real.sqrt_le_left (by positivity)]
  exact_mod_cast Iff.rfl

/-- `c ≤ √sq ↔ c² ≤ sq` for naturals. -/
lemma le_sqrt_iff_sq (sq c : Nat) : (c : ℝ) ≤ Real.sqrt sq ↔ c ^ 2 ≤ sq := by
  rw [Real.le_sqrt (by positivity) (by positivity)]
  exact_mod_cast Iff.rfl

/-- Floor of `(√M - c) / n` equals the natural-number computation
`(Nat.sqrt M - c) / n`, provided `c ≤ Nat.sqrt M`. -/
lemma int_floor_sqrt_sub_div (M c n : Nat) (hn : 0 < n)
    (hc : c ≤ Nat.sqrt M) :
    ⌊(Real.sqrt M - c) / n⌋ = ((Nat.sqrt M - c) / n : ℕ) := by
  have hdm := Nat.div_add_mod (Nat.sqrt M - c) n
  have hmod := Nat.mod_lt (Nat.sqrt M - c) hn
  have hb1 : n * ((Nat.sqrt M - c) / n) + c ≤ Nat.sqrt M := by omega
  have hb2 : Nat.sqrt M + 1 ≤ n * ((Nat.sqrt M - c) / n) + n + c := by omega
  have h1 : (Nat.sqrt M : ℝ) ≤ Real.sqrt M := Real.nat_sqrt_le_real_sqrt
  have h2 : Real.sqrt M < Nat.sqrt M + 1 := Real.real_sqrt_lt_nat_sqrt_succ
  have hnR : (0 : ℝ) < n := by positivity
  have hc1 : (n : ℝ) * (((Nat.sqrt M - c) / n : ℕ) : ℝ) + c ≤ (Nat.sqrt M : ℝ) := by
    exact_mod_cast hb1
  have hc2 : (Nat.sqrt M : ℝ) + 1 ≤ (n : ℝ) * (((Nat.sqrt M - c) / n : ℕ) : ℝ) + n + c := by
    exact_mod_cast hb2
  rw [Int.floor_eq_iff]
  refine ⟨?_, ?_⟩
  · rw [Int.cast_natCast, le_div_iff₀ hnR]
    linarith
  · rw [Int.cast_natCast, div_lt_iff₀ hnR]
    have expand : ((((Nat.sqrt M - c) / n : ℕ) : ℝ) + 1) * n
        = (((Nat.sqrt M - c) / n : ℕ) : ℝ) * n + n := by ring
    rw [expand]
    linarith

/-- `√(k² · sq) = k · √sq` for naturals, cast to `ℝ`. -/
lemma sqrt_mul_sq (k sq : Nat) :
    Real.sqrt ((k ^ 2 * sq : ℕ) : ℝ) = k * Real.sqrt sq := by
  push_cast
  rw [show ((k : ℝ) ^ 2 * sq) = (k : ℝ) ^ 2 * sq from rfl,
    Real.sqrt_mul (by positivity), Real.sqrt_sq (by positivity)]

/-- On the feather band, `featherAlpha` is exactly the truncation
`⌊255 * (d - 35) / 40⌋` of the real formula the source computes in
floating point (`int` truncates, and the value is nonnegative there). -/
lemma featherAlpha_eq_floor (sq : Nat) (h : 1225 < sq) :
    (featherAlpha sq : ℤ) = ⌊255 * (Real.sqrt sq - 35) / 40⌋ := by
  have hM : Real.sqrt ((65025 * sq : ℕ) : ℝ) = 255 * Real.sqrt sq := by
    have := sqrt_mul_sq 255 sq
    norm_num at this ⊢
    exact this
  have hc : 8925 ≤ Nat.sqrt (65025 * sq) := Nat.le_sqrt.mpr (by omega)
  have hkey : 255 * (Real.sqrt sq - 35) / 40
      = (Real.sqrt ((65025 * sq : ℕ) : ℝ) - (8925 : ℕ)) / (40 : ℕ) := by
    rw [hM]
    push_cast
    ring
  rw [hkey, int_floor_sqrt_sub_div _ _ _ (by norm_num) hc, featherAlpha]

/-- On the feather band, `featherAlphaSpecRound` is exactly the
rounding `round (255 * (d - 35) / 40)` that the spec asserts. -/
lemma featherAlphaSpecRound_eq_round (sq : Nat) (h : 1225 < sq) :
    (featherAlphaSpecRound sq : ℤ) = round (255 * (Real.sqrt sq - 35) / 40) := by
  have hM : Real.sqrt ((260100 * sq : ℕ) : ℝ) = 510 * Real.sqrt sq := by
    have := sqrt_mul_sq 510 sq
    norm_num at this ⊢
    exact this
  have hc : 17810 ≤ Nat.sqrt (260100 * sq) := Nat.le_sqrt.mpr (by omega)
  rw [round_eq]
  have hkey : 255 * (Real.sqrt sq - 35) / 40 + 1 / 2
      = (Real.sqrt ((260100 * sq : ℕ) : ℝ) - (17810 : ℕ)) / (80 : ℕ) := by
    rw [hM]
    push_cast
    ring
  rw [hkey, int_floor_sqrt_sub_div _ _ _ (by norm_num) hc, featherAlphaSpecRound]

/-- Pixel-level frame effect of `blue_to_alpha`: RGB never changes and
alpha never increases, in all three branches. -/
lemma blue_to_alpha_pixel_rgb (key : RGB) (p : RGBA) :
    (blue_to_alpha_pixel key p).r = p.r ∧ (blue_to_alpha_pixel key p).g = p.g ∧
    (blue_to_alpha_pixel key p).b = p.b ∧ (blue_to_alpha_pixel key p).a ≤ p.a := by
  unfold blue_to_alpha_pixel
  dsimp only
  split
  · exact ⟨rfl, rfl, rfl, Nat.zero_le _⟩
  · split
    · exact ⟨rfl, rfl, rfl, Nat.min_le_left _ _⟩
    · exact ⟨rfl, rfl, rfl, Nat.le_refl _⟩

/-- Concrete value: `Nat.sqrt 356076900 = 18870` (`= 255 · 74`). -/
lemma nat_sqrt_356076900 : Nat.sqrt 356076900 = 18870 :=
  (Nat.eq_sqrt.mpr (by norm_num)).symm

/-- Concrete value: `Nat.sqrt 1424307600 = 37740` (`= 510 · 74`). -/
lemma nat_sqrt_1424307600 : Nat.sqrt 1424307600 = 37740 :=
  (Nat.eq_sqrt.mpr (by norm_num)).symm

/-- `featherAlpha` at squared distance `74² = 5476`: the source's
truncation gives `248`. -/
lemma featherAlpha_5476 : featherAlpha 5476 = 248 := by
  have : (65025 : ℕ) * 5476 = 356076900 := by norm_num
  rw [featherAlpha, this, nat_sqrt_356076900]

/-- The spec's rounding at squared distance `74² = 5476` gives `249`. -/
lemma featherAlphaSpecRound_5476 : featherAlphaSpecRound 5476 = 249 := by
  have : (260100 : ℕ) * 5476 = 1424307600 := by norm_num
  rw [featherAlphaSpecRound, this, nat_sqrt_1424307600]

end BonziClone

namespace BonziClone

/-! ## Claim theorems for the chroma-key extractor -/

/-- C5: `applyKey` makes every pixel within key distance 35 fully
transparent with RGB unchanged (in particular a pixel equal to the
key), and leaves every pixel at distance ≥ 75 entirely unchanged.  The
first two conjuncts bridge the spec's Euclidean distance to the squared
distance the model compares. -/
theorem applyKey_threshold_behavior (key : RGB) (p : RGBA) :
    (Real.sqrt (distSq p key) ≤ 35 ↔ distSq p key ≤ 1225) ∧
    ((75 : ℝ) ≤ Real.sqrt (distSq p key) ↔ 5625 ≤ distSq p key) ∧
    (distSq p key ≤ 1225 → blue_to_alpha_pixel key p = { p with a := 0 }) ∧
    (5625 ≤ distSq p key → blue_to_alpha_pixel key p = p) ∧
    (p.r = key.r → p.g = key.g → p.b = key.b →
      blue_to_alpha_pixel key p = { p with a := 0 }) := by
  have hkeyeq : p.r = key.r → p.g = key.g → p.b = key.b → distSq p key = 0 := by
    intro h1 h2 h3
    simp [distSq, h1, h2, h3]
  refine ⟨?_, ?_, ?_, ?_, ?_⟩
  · simpa using sqrt_le_iff_sq (distSq p key) 35
  · simpa using le_sqrt_iff_sq (distSq p key) 75
  · intro h
    unfold blue_to_alpha_pixel
    simp [h]
  · intro h
    unfold blue_to_alpha_pixel
    have h1 : ¬ distSq p key ≤ 1225 := by omega
    have h2 : ¬ distSq p key < 5625 := by omega
    simp [h1, h2]
  · intro h1 h2 h3
    unfold blue_to_alpha_pixel
    simp [hkeyeq h1 h2 h3]

/-- Witness for C5: the pixel equal to the key `(10,20,30)` becomes
fully transparent with RGB kept, and the far pixel `(255,255,255)`
against key `(0,0,0)` is untouched. -/
theorem applyKey_threshold_behavior_witness :
    blue_to_alpha_pixel ⟨10, 20, 30⟩ ⟨10, 20, 30, 200⟩ = ⟨10, 20, 30, 0⟩ ∧
    blue_to_alpha_pixel ⟨0, 0, 0⟩ ⟨255, 255, 255, 77⟩ = ⟨255, 255, 255, 77⟩ := by
  refine ⟨?_, ?_⟩
  · exact (applyKey_threshold_behavior ⟨10, 20, 30⟩ ⟨10, 20, 30, 200⟩).2.2.1 (by decide)
  · exact (applyKey_threshold_behavior ⟨0, 0, 0⟩ ⟨255, 255, 255, 77⟩).2.2.2.1 (by decide)

/-- C9: `blue_to_alpha` only modifies the alpha channel: output
dimensions equal input dimensions, every output pixel keeps the input
pixel's R, G, B, and alpha never increases. -/
theorem blue_to_alpha_rgb_preserved (key : RGB) (img : List (List RGBA)) :
    (blue_to_alpha key img).length = img.length ∧
    (∀ i : Nat, ((blue_to_alpha key img).getD i []).length = (img.getD i []).length) ∧
    (∀ i j : Nat,
      (((blue_to_alpha key img).getD i []).getD j ⟨0, 0, 0, 0⟩).r
          = ((img.getD i []).getD j ⟨0, 0, 0, 0⟩).r ∧
      (((blue_to_alpha key img).getD i []).getD j ⟨0, 0, 0, 0⟩).g
          = ((img.getD i []).getD j ⟨0, 0, 0, 0⟩).g ∧
      (((blue_to_alpha key img).getD i []).getD j ⟨0, 0, 0, 0⟩).b
          = ((img.getD i []).getD j ⟨0, 0, 0, 0⟩).b ∧
      (((blue_to_alpha key img).getD i []).getD j ⟨0, 0, 0, 0⟩).a
          ≤ ((img.getD i []).getD j ⟨0, 0, 0, 0⟩).a) := by
  have hrow : ∀ (row : List RGBA) (j : Nat),
      ((row.map (blue_to_alpha_pixel key)).getD j ⟨0, 0, 0, 0⟩).r
          = (row.getD j ⟨0, 0, 0, 0⟩).r ∧
      ((row.map (blue_to_alpha_pixel key)).getD j ⟨0, 0, 0, 0⟩).g
          = (row.getD j ⟨0, 0, 0, 0⟩).g ∧
      ((row.map (blue_to_alpha_pixel key)).getD j ⟨0, 0, 0, 0⟩).b
          = (row.getD j ⟨0, 0, 0, 0⟩).b ∧
      ((row.map (blue_to_alpha_pixel key)).getD j ⟨0, 0, 0, 0⟩).a
          ≤ (row.getD j ⟨0, 0, 0, 0⟩).a := by
    intro row
    induction row with
    | nil => intro j; simp [List.getD]
    | cons p ps ih =>
      intro j
      cases j with
      | zero => simpa using blue_to_alpha_pixel_rgb key p
      | succ j => simpa using ih j
  refine ⟨by simp [blue_to_alpha], ?_, ?_⟩
  · intro i
    induction img generalizing i with
    | nil => simp [blue_to_alpha]
    | cons row rows ih =>
      cases i with
      | zero => simp [blue_to_alpha]
      | succ i => simpa [blue_to_alpha] using ih i
  · intro i j
    induction img generalizing i with
    | nil => simp [blue_to_alpha, List.getD]
    | cons row rows ih =>
      cases i with
      | zero => simpa [blue_to_alpha] using hrow row j
      | succ i => simpa [blue_to_alpha] using ih i

/-- Counterexample for C2 as stated: at the concrete pixel
`(74,0,0,255)` against key `(0,0,0)` — Euclidean key distance exactly
`74` — the source computes alpha `min 255 (int (255·39/40)) = 248`,
while the claim's `min 255 (round (255·39/40)) = 249`.  The third
conjunct certifies that `249` really is the claimed rounding of the
real-valued formula at this input. -/
theorem feather_round_counterexample :
    distSq ⟨74, 0, 0, 255⟩ ⟨0, 0, 0⟩ = 74 ^ 2 ∧
    (blue_to_alpha_pixel ⟨0, 0, 0⟩ ⟨74, 0, 0, 255⟩).a = 248 ∧
    min (((⟨74, 0, 0, 255⟩ : RGBA).a : ℤ))
        (round (255 * (Real.sqrt (distSq ⟨74, 0, 0, 255⟩ ⟨0, 0, 0⟩) - 35) / 40)) = 249 ∧
    (248 : Nat) ≠ 249 := by
  have hd : distSq ⟨74, 0, 0, 255⟩ ⟨0, 0, 0⟩ = 5476 := by decide
  have hround : round (255 * (Real.sqrt ((5476 : ℕ) : ℝ) - 35) / 40) = 249 := by
    rw [← featherAlphaSpecRound_eq_round 5476 (by norm_num), featherAlphaSpecRound_5476]
    norm_num
  refine ⟨by decide, ?_, ?_, by decide⟩
  · unfold blue_to_alpha_pixel
    rw [hd]
    norm_num [featherAlpha_5476]
  · rw [hd]
    rw [hround]
    norm_num

/-- C2 (amended): in the feather band the new alpha is
`min originalAlpha ⌊255·(d-35)/40⌋` — truncation, not rounding — and
RGB is unchanged; at distance exactly 74 this gives
`min originalAlpha 248`. -/
theorem feather_band_truncates (key : RGB) (p : RGBA)
    (h1 : 1225 < distSq p key) (h2 : distSq p key < 5625) :
    ((blue_to_alpha_pixel key p).a : ℤ)
        = min (p.a : ℤ) ⌊255 * (Real.sqrt (distSq p key) - 35) / 40⌋ ∧
    (blue_to_alpha_pixel key p).r = p.r ∧
    (blue_to_alpha_pixel key p).g = p.g ∧
    (blue_to_alpha_pixel key p).b = p.b := by
  have hno : ¬ distSq p key ≤ 1225 := by omega
  refine ⟨?_, (blue_to_alpha_pixel_rgb key p).1,
    (blue_to_alpha_pixel_rgb key p).2.1, (blue_to_alpha_pixel_rgb key p).2.2.1⟩
  unfold blue_to_alpha_pixel
  rw [← featherAlpha_eq_floor _ h1]
  simp [hno, h2, Nat.cast_min]

/-- Witness for C2 (amended), at the distance-74 pixel of the
counterexample: the feather alpha is `min 255 248 = 248`. -/
theorem feather_band_truncates_witness :
    1225 < distSq ⟨74, 0, 0, 255⟩ ⟨0, 0, 0⟩ ∧
    distSq ⟨74, 0, 0, 255⟩ ⟨0, 0, 0⟩ < 5625 ∧
    ((blue_to_alpha_pixel ⟨0, 0, 0⟩ ⟨74, 0, 0, 255⟩).a : ℤ)
        = min ((255 : Nat) : ℤ)
            ⌊255 * (Real.sqrt (distSq ⟨74, 0, 0, 255⟩ ⟨0, 0, 0⟩) - 35) / 40⌋ := by
  refine ⟨by decide, by decide, ?_⟩
  exact (feather_band_truncates ⟨0, 0, 0⟩ ⟨74, 0, 0, 255⟩ (by decide) (by decide)).1

/-! ## Animation/behavior engine (`src/main.py`, class `Buddy`)

A frame is an opaque decoded bitmap (`QPixmap`), modelled as an id.
The engine state collects the `Buddy` fields that the animation logic
reads and writes: the animation mapping `self.anims` (a dict, modelled
as an association list with the dict's key-unique lookup), the current
animation name/frames/loop flag, the frame index `self.anim_i`, the
frame period `self.frame_ms`, the currently displayed pixmap
(`set_pixmap`), and whether the single-shot behavior timer is armed
(`schedule_next_action` starts it; its uniformly random delay in
8000–25000 ms is real-time behavior outside the model). -/

/-- An opaque decoded frame (a `QPixmap` id). -/
abbrev Frame := Nat

/-- The animation-relevant mutable state of the `Buddy` widget. -/
structure EngineState where
  anims : List (String × List Frame)
  current_anim : String
  current_frames : List Frame
  current_loop : Bool
  anim_i : Nat
  frame_ms : Nat
  displayed : Frame
  behavior_armed : Bool
deriving DecidableEq, Repr

/-- `self.anim_speeds`: `{"idle": 300, "_default": 100}`, read as
`self.anim_speeds.get(anim_name, self.anim_speeds["_default"])`. -/
def anim_speeds (name : String) : Nat :=
  if name = "idle" then 300 else 100

/-- `Buddy.play(anim_name, loop)`: fetch `self.anims.get(anim_name, [])`;
if empty, return (no-op); otherwise switch the current animation, reset
the index to 0, display frame 0, and restart the frame timer with the
animation's period. -/
def play (s : EngineState) (name : String) (loop : Bool) : EngineState :=
  let frames := (s.anims.lookup name).getD []
  if frames.isEmpty then s
  else
    { s with
      current_anim := name
      current_frames := frames
      current_loop := loop
      anim_i := 0
      displayed := frames.headD 0
      frame_ms := anim_speeds name }

/-- `Buddy.schedule_next_action()`: start the single-shot behavior
timer (with a random 8000–25000 ms delay, abstracted away). -/
def schedule_next_action (s : EngineState) : EngineState :=
  { s with behavior_armed := true }

/-- `Buddy.tick_anim()`: guard on empty current frames; increment
`anim_i`; on overflow either wrap to 0 (loop) or return to idle and
re-arm the behavior scheduler (non-loop); otherwise display the new
frame. -/
def tick_anim (s : EngineState) : EngineState :=
  if s.current_frames.isEmpty then s
  else
    let i := s.anim_i + 1
    if s.current_frames.length ≤ i then
      if s.current_loop then
        { s with anim_i := 0, displayed := s.current_frames.headD 0 }
      else
        schedule_next_action (play { s with anim_i := i } "idle" true)
    else
      { s with anim_i := i, displayed := s.current_frames.getD i 0 }

/-- `Buddy.do_random_action()`: collect the non-idle animations with at
least one frame; if none, just re-arm the scheduler; otherwise play a
randomly chosen one non-looping.  `random.choice` is modelled by the
index `pick % choices.length`. -/
def do_random_action (s : EngineState) (pick : Nat) : EngineState :=
  let choices := (s.anims.filter fun nf => nf.1 ≠ "idle" ∧ nf.2 ≠ []).map Prod.fst
  if choices.isEmpty then schedule_next_action s
  else play s (choices.getD (pick % choices.length) "") false

/-! ### Engine lemmas -/

lemma headD_eq_getD_zero {α : Type} (l : List α) (d : α) :
    l.headD d = l.getD 0 d := by
  cases l <;> simp

/-- `play` when the animation exists and is non-empty. -/
lemma play_of_lookup (s : EngineState) (name : String) (loop : Bool)
    (frames : List Frame) (h : s.anims.lookup name = some frames)
    (hne : frames ≠ []) :
    play s name loop
      = { s with
          current_anim := name
          current_frames := frames
          current_loop := loop
          anim_i := 0
          displayed := frames.getD 0 0
          frame_ms := anim_speeds name } := by
  unfold play
  rw [h]
  cases frames with
  | nil => exact absurd rfl hne
  | cons f fs => simp

/-- `play` of an absent or empty animation is the identity. -/
lemma play_noop (s : EngineState) (name : String) (loop : Bool)
    (h : (s.anims.lookup name).getD [] = []) :
    play s name loop = s := by
  unfold play
  simp [h]

/-- An in-range looping tick advances the index modulo the length. -/
lemma tick_anim_loop_step (s : EngineState) (hne : s.current_frames ≠ [])
    (hloop : s.current_loop = true)
    (hi : s.anim_i < s.current_frames.length) :
    tick_anim s
      = { s with
          anim_i := (s.anim_i + 1) % s.current_frames.length
          displayed := s.current_frames.getD
            ((s.anim_i + 1) % s.current_frames.length) 0 } := by
  unfold tick_anim
  rw [if_neg (by simp [hne])]
  dsimp only
  by_cases hcase : s.current_frames.length ≤ s.anim_i + 1
  · have hlen : s.anim_i + 1 = s.current_frames.length := by omega
    rw [if_pos hcase, hloop, if_pos rfl, hlen, Nat.mod_self, headD_eq_getD_zero]
  · rw [if_neg hcase, Nat.mod_eq_of_lt (by omega)]

/-- A strictly in-bounds tick advances the index by one, whatever the
loop flag. -/
lemma tick_anim_inbounds (s : EngineState) (hne : s.current_frames ≠ [])
    (h : s.anim_i + 1 < s.current_frames.length) :
    tick_anim s
      = { s with
          anim_i := s.anim_i + 1
          displayed := s.current_frames.getD (s.anim_i + 1) 0 } := by
  unfold tick_anim
  rw [if_neg (by simp [hne])]
  dsimp only
  rw [if_neg (by omega)]

/-- The overflowing non-loop tick: return to idle and re-arm the
scheduler. -/
lemma tick_anim_last_nonloop (s : EngineState) (hne : s.current_frames ≠ [])
    (hloop : s.current_loop = false)
    (hlast : s.anim_i + 1 = s.current_frames.length) :
    tick_anim s
      = schedule_next_action (play { s with anim_i := s.anim_i + 1 } "idle" true) := by
  unfold tick_anim
  rw [if_neg (by simp [hne])]
  dsimp only
  rw [if_pos (by omega), hloop]
  simp

/-- Iterating `tick_anim` from a freshly started looping animation
cycles the index modulo the frame count. -/
lemma tick_iter_loop (s1 : EngineState) (frames : List Frame)
    (hf : s1.current_frames = frames) (hne : frames ≠ [])
    (hloop : s1.current_loop = true) (hi : s1.anim_i = 0)
    (hd : s1.displayed = frames.getD 0 0) :
    ∀ k : Nat, tick_anim^[k] s1
      = { s1 with
          anim_i := k % frames.length
          displayed := frames.getD (k % frames.length) 0 } := by
  have hlen : 0 < frames.length := List.length_pos.mpr hne
  intro k
  induction k with
  | zero =>
    rw [Function.iterate_zero_apply, Nat.zero_mod, ← hd, ← hi]
  | succ k ih =>
    rw [Function.iterate_succ_apply', ih,
      tick_anim_loop_step _ (by simpa [hf] using hne) (by simp [hloop])
        (by simp [hf]; exact Nat.mod_lt _ hlen)]
    simp [hf, Nat.mod_add_mod]

/-- Iterating `tick_anim` from a freshly started non-looping animation
walks the indices `0, 1, …, len-1` linearly, without touching the
behavior scheduler. -/
lemma tick_iter_lin (s1 : EngineState) (frames : List Frame)
    (hf : s1.current_frames = frames) (hloop : s1.current_loop = false)
    (hi : s1.anim_i = 0) (hd : s1.displayed = frames.getD 0 0) :
    ∀ k : Nat, k < frames.length → tick_anim^[k] s1
      = { s1 with anim_i := k, displayed := frames.getD k 0 } := by
  intro k
  induction k with
  | zero =>
    intro _
    rw [Function.iterate_zero_apply, ← hd, ← hi]
  | succ k ih =>
    intro hk
    have hne : frames ≠ [] := by
      intro hnil
      rw [hnil] at hk
      simp at hk
    rw [Function.iterate_succ_apply', ih (by omega),
      tick_anim_inbounds _ (by simpa [hf] using hne) (by simpa [hf] using hk)]
    simp [hf]

/-! ### Claim theorems for the engine -/

/-- C1: after `play(name, loop)` of a loaded non-empty animation the
engine displays frame 0; repeated `tick()` walks the indices
`0,1,…,len-1`; at index `len` a looping animation wraps to 0 and a
non-looping one transitions to `play("idle", loop=true)` (idle frame 0,
loop mode on) and re-arms the autonomous-action scheduler in that same
tick (the scheduler is untouched during the action itself). -/
theorem play_then_tick_cycles
    (s : EngineState) (name : String) (loop : Bool)
    (frames idleF : List Frame)
    (hlook : s.anims.lookup name = some frames) (hne : frames ≠ [])
    (hidle : s.anims.lookup "idle" = some idleF) (hidlene : idleF ≠ []) :
    (play s name loop).anim_i = 0 ∧
    (play s name loop).displayed = frames.getD 0 0 ∧
    (loop = true → ∀ k : Nat,
        (tick_anim^[k] (play s name loop)).current_anim = name ∧
        (tick_anim^[k] (play s name loop)).anim_i = k % frames.length ∧
        (tick_anim^[k] (play s name loop)).displayed
          = frames.getD (k % frames.length) 0) ∧
    (loop = false →
        (∀ k : Nat, k < frames.length →
            (tick_anim^[k] (play s name loop)).current_anim = name ∧
            (tick_anim^[k] (play s name loop)).anim_i = k ∧
            (tick_anim^[k] (play s name loop)).displayed = frames.getD k 0 ∧
            (tick_anim^[k] (play s name loop)).behavior_armed
              = s.behavior_armed) ∧
        (tick_anim^[frames.length] (play s name loop)).current_anim = "idle" ∧
        (tick_anim^[frames.length] (play s name loop)).current_frames = idleF ∧
        (tick_anim^[frames.length] (play s name loop)).current_loop = true ∧
        (tick_anim^[frames.length] (play s name loop)).anim_i = 0 ∧
        (tick_anim^[frames.length] (play s name loop)).displayed
          = idleF.getD 0 0 ∧
        (tick_anim^[frames.length] (play s name loop)).behavior_armed = true) := by
  have hplay := play_of_lookup s name loop frames hlook hne
  have hlen : 0 < frames.length := List.length_pos.mpr hne
  refine ⟨by rw [hplay], by rw [hplay], ?_, ?_⟩
  · intro hloop k
    rw [hplay, tick_iter_loop _ frames (by simp) hne (by simp [hloop]) (by simp)
      (by simp)]
    simp
  · intro hloop
    subst hloop
    have hlin := tick_iter_lin (play s name false) frames (by rw [hplay])
      (by rw [hplay]) (by rw [hplay]) (by rw [hplay])
    constructor
    · intro k hk
      rw [hlin k hk, hplay]
      simp
    · obtain ⟨L, hL⟩ : ∃ L, frames.length = L + 1 :=
        ⟨frames.length - 1, by omega⟩
      have hlast := hlin L (by omega)
      rw [hL, Function.iterate_succ_apply', hlast,
        tick_anim_last_nonloop _ (by simp [hplay, hne]) (by simp [hplay])
          (by simp [hplay, hL])]
      dsimp only
      rw [play_of_lookup _ "idle" true idleF (by simp [hplay, hidle]) hidlene]
      simp [schedule_next_action, hplay]

/-- Witness for C1: with animations `idle ↦ [10]`, `wave ↦ [1,2,3]`,
playing `wave` non-looping, the third tick lands back on looping idle
frame 10 with the scheduler re-armed, and the second tick displays
frame 3. -/
theorem play_then_tick_cycles_witness :
    (tick_anim^[2] (play
        ⟨[("idle", [10]), ("wave", [1, 2, 3])], "idle", [10], true, 0, 300, 10, false⟩
        "wave" false)).displayed = 3 ∧
    (tick_anim^[3] (play
        ⟨[("idle", [10]), ("wave", [1, 2, 3])], "idle", [10], true, 0, 300, 10, false⟩
        "wave" false)).current_anim = "idle" ∧
    (tick_anim^[3] (play
        ⟨[("idle", [10]), ("wave", [1, 2, 3])], "idle", [10], true, 0, 300, 10, false⟩
        "wave" false)).current_loop = true ∧
    (tick_anim^[3] (play
        ⟨[("idle", [10]), ("wave", [1, 2, 3])], "idle", [10], true, 0, 300, 10, false⟩
        "wave" false)).displayed = 10 ∧
    (tick_anim^[3] (play
        ⟨[("idle", [10]), ("wave", [1, 2, 3])], "idle", [10], true, 0, 300, 10, false⟩
        "wave" false)).behavior_armed = true := by
  have h := play_then_tick_cycles
    ⟨[("idle", [10]), ("wave", [1, 2, 3])], "idle", [10], true, 0, 300, 10, false⟩
    "wave" false [1, 2, 3] [10] (by decide) (by decide) (by decide) (by decide)
  obtain ⟨-, -, -, hfalse⟩ := h
  obtain ⟨hpre, hfin⟩ := hfalse rfl
  have h2 := (hpre 2 (by decide)).2.2.1
  exact ⟨by simpa using h2, hfin.1, hfin.2.2.1, by simpa using hfin.2.2.2.2.1,
    hfin.2.2.2.2.2⟩

/-- C6: `play` of an absent or zero-frame animation is a strict no-op:
the whole engine state — current animation, frames, loop mode, frame
index, frame interval and displayed frame — is unchanged. -/
theorem play_absent_or_empty_noop (s : EngineState) (name : String) (loop : Bool)
    (h : s.anims.lookup name = none ∨ s.anims.lookup name = some []) :
    play s name loop = s := by
  rcases h with h | h
  · exact play_noop s name loop (by rw [h]; rfl)
  · exact play_noop s name loop (by rw [h]; rfl)

/-- Witness for C6: an unknown name and a loaded-but-empty animation
are both no-ops. -/
theorem play_absent_or_empty_noop_witness :
    play ⟨[("idle", [10]), ("broken", [])], "idle", [10], true, 0, 300, 10, false⟩
        "dance" true
      = ⟨[("idle", [10]), ("broken", [])], "idle", [10], true, 0, 300, 10, false⟩ ∧
    play ⟨[("idle", [10]), ("broken", [])], "idle", [10], true, 0, 300, 10, false⟩
        "broken" false
      = ⟨[("idle", [10]), ("broken", [])], "idle", [10], true, 0, 300, 10, false⟩ := by
  constructor
  · exact play_absent_or_empty_noop _ "dance" true (Or.inl (by decide))
  · exact play_absent_or_empty_noop _ "broken" false (Or.inr (by decide))

/-- The engine invariant of C7: the active animation is non-empty and
the frame index is strictly within bounds. -/
def EngineInv (s : EngineState) : Prop :=
  s.current_frames ≠ [] ∧ s.anim_i < s.current_frames.length

/-- `play` preserves the engine invariant unconditionally: it either
no-ops or installs a non-empty animation at index 0. -/
lemma play_preserves_inv (s : EngineState) (name : String) (loop : Bool)
    (h : EngineInv s) : EngineInv (play s name loop) := by
  rcases hlook : (s.anims.lookup name).getD [] with - | ⟨f, fs⟩
  · rw [play_noop s name loop hlook]
    exact h
  · unfold play
    rw [hlook]
    simp [EngineInv]

/-- C7: every engine operation — `play`, `tick_anim` and the
autonomous-action trigger `do_random_action` — preserves the invariant
that the current frame sequence is non-empty and the frame index is in
`[0, len)`, provided the loaded `idle` animation is non-empty (which
the `Buddy` constructor guarantees before the engine starts). -/
theorem engine_preserves_frame_invariant (s : EngineState) (name : String)
    (loop : Bool) (pick : Nat) (hInv : EngineInv s)
    (hidle : (s.anims.lookup "idle").getD [] ≠ []) :
    EngineInv (play s name loop) ∧ EngineInv (tick_anim s) ∧
    EngineInv (do_random_action s pick) := by
  refine ⟨play_preserves_inv s name loop hInv, ?_, ?_⟩
  · unfold tick_anim
    rw [if_neg (by simp [hInv.1])]
    dsimp only
    by_cases hcase : s.current_frames.length ≤ s.anim_i + 1
    · rw [if_pos hcase]
      by_cases hloop : s.current_loop
      · rw [if_pos hloop]
        exact ⟨hInv.1, List.length_pos.mpr hInv.1⟩
      · rw [if_neg hloop]
        have hmid : ({ s with anim_i := s.anim_i + 1 } :
            EngineState).anims.lookup "idle" = s.anims.lookup "idle" := rfl
        rcases hlook : s.anims.lookup "idle" with - | idleF
        · rw [hlook] at hidle
          simp at hidle
        · rw [hlook] at hidle
          simp only [Option.getD_some] at hidle
          have := play_of_lookup ({ s with anim_i := s.anim_i + 1 })
            "idle" true idleF (by rw [hmid, hlook]) hidle
          rw [this]
          exact ⟨by simpa [schedule_next_action] using hidle,
            by simpa [schedule_next_action] using List.length_pos.mpr hidle⟩
    · rw [if_neg hcase]
      exact ⟨hInv.1, by dsimp only; omega⟩
  · unfold do_random_action
    dsimp only
    split
    · exact hInv
    · exact play_preserves_inv s _ false hInv

/-- Witness for C7: the invariant holds at the example state and is
preserved by a `play`, a `tick_anim` and a `do_random_action` there. -/
theorem engine_preserves_frame_invariant_witness :
    EngineInv (play
      ⟨[("idle", [10]), ("wave", [1, 2, 3])], "idle", [10], true, 0, 300, 10, false⟩
      "wave" false) ∧
    EngineInv (tick_anim
      ⟨[("idle", [10]), ("wave", [1, 2, 3])], "idle", [10], true, 0, 300, 10, false⟩) ∧
    EngineInv (do_random_action
      ⟨[("idle", [10]), ("wave", [1, 2, 3])], "idle", [10], true, 0, 300, 10, false⟩ 7) :=
  engine_preserves_frame_invariant
    ⟨[("idle", [10]), ("wave", [1, 2, 3])], "idle", [10], true, 0, 300, 10, false⟩
    "wave" false 7 ⟨by decide, by decide⟩ (by decide)

/-! ## Interaction layer: pointer drag (`src/main.py`)

`Buddy.mousePressEvent` captures `self._drag_offset = globalPos -
frameGeometry().topLeft()` on the left button;
`Buddy.mouseMoveEvent` moves the window to `globalPos - self._drag_offset`
while the offset is present and the left button is held;
`Buddy.mouseReleaseEvent` clears the offset unconditionally. -/

/-- Componentwise difference of two screen points. -/
def psub (a b : Int × Int) : Int × Int := (a.1 - b.1, a.2 - b.2)

/-- The drag-relevant window state: current origin
(`frameGeometry().topLeft()` / target of `move`) and the optional
captured drag offset `self._drag_offset`. -/
structure DragWin where
  origin : Int × Int
  drag_offset : Option (Int × Int)
deriving DecidableEq, Repr

/-- `Buddy.mousePressEvent`: on the left button, capture the offset
from the window origin to the pointer. -/
def mousePressEvent (w : DragWin) (leftButton : Bool) (globalPos : Int × Int) :
    DragWin :=
  if leftButton then { w with drag_offset := some (psub globalPos w.origin) }
  else w

/-- `Buddy.mouseMoveEvent`: if an offset is captured and the left
button is among the held buttons, move the window to
`globalPos - offset`. -/
def mouseMoveEvent (w : DragWin) (leftHeld : Bool) (globalPos : Int × Int) :
    DragWin :=
  match w.drag_offset with
  | some off => if leftHeld then { w with origin := psub globalPos off } else w
  | none => w

/-- `Buddy.mouseReleaseEvent`: clear the drag offset unconditionally. -/
def mouseReleaseEvent (w : DragWin) : DragWin :=
  { w with drag_offset := none }

/-- C8: while the drag state is present (offset captured, left button
held — the button is held for the whole life of the drag state, since
release clears it), every pointer move relocates the window to
`pointerPosition - capturedOffset`; when no drag state is present a
move changes nothing, and press/release never move the window, so the
position is updated only while the drag state is present. -/
theorem drag_moves_window (w : DragWin) (off pos : Int × Int) (button : Bool) :
    (w.drag_offset = some off →
      (mouseMoveEvent w true pos).origin = psub pos off) ∧
    (w.drag_offset = none → mouseMoveEvent w button pos = w) ∧
    (mousePressEvent w button pos).origin = w.origin ∧
    (mouseReleaseEvent w).origin = w.origin := by
  refine ⟨?_, ?_, ?_, ?_⟩
  · intro h
    unfold mouseMoveEvent
    rw [h]
    rfl
  · intro h
    unfold mouseMoveEvent
    rw [h]
  · unfold mousePressEvent
    split <;> rfl
  · rfl

/-- Witness for C8, the spec's scenario: grab offset `(10,10)`, window
at `(100,100)`, pointer moves to `(150,140)` → origin `(140,130)`;
without drag state the same move does nothing. -/
theorem drag_moves_window_witness :
    (mouseMoveEvent ⟨(100, 100), some (10, 10)⟩ true (150, 140)).origin
      = (140, 130) ∧
    mouseMoveEvent ⟨(100, 100), none⟩ true (150, 140) = ⟨(100, 100), none⟩ := by
  constructor
  · rw [(drag_moves_window ⟨(100, 100), some (10, 10)⟩ (10, 10) (150, 140)
      true).1 rfl]
    rfl
  · exact (drag_moves_window ⟨(100, 100), none⟩ (0, 0) (150, 140) true).2.1 rfl

/-! ## Frame store (`Buddy.load_frames`, `src/main.py`)

For an animation folder: if `order.txt` exists, its lines (stripped,
with blank lines and `#`-comments skipped) name the frame files in
order; otherwise the folder's `*.png` files in sorted (lexicographic)
order.  Every path that does not exist or fails to decode is skipped.
The manifest contents are modelled as the list of its lines
(`read_text().splitlines()`), the glob result as the list of png file
names, and `p.exists()` + `QPixmap(p)` + `isNull()` jointly as a
partial decode function. -/

/-- Python's `line.strip()` (whitespace strip on both ends). -/
def pyStrip (s : String) : String :=
  ⟨((s.data.dropWhile Char.isWhitespace).reverse.dropWhile
      Char.isWhitespace).reverse⟩

/-- Python's `name.startswith("#")`. -/
def startsWithHash (s : String) : Bool := s.data.head? == some '#'

/-- The manifest loop of `load_frames`: keep each stripped line that is
neither empty nor a `#`-comment. -/
def parse_order (lines : List String) : List String :=
  lines.filterMap fun line =>
    let name := pyStrip line
    if name = "" || startsWithHash name then none else some name

/-- Python's `sorted` on file names (insertion sort, lexicographic). -/
def insertSorted (x : String) : List String → List String
  | [] => [x]
  | y :: ys => if x ≤ y then x :: y :: ys else y :: insertSorted x ys

/-- `sorted(folder.glob("*.png"))`. -/
def sortStrings (l : List String) : List String := l.foldr insertSorted []

/-- `Buddy.load_frames`: choose the path list from the manifest if
`order.txt` exists (even if every line is skipped), else from the
sorted glob; then decode, silently skipping failures. -/
def load_frames (orderFile : Option (List String)) (folderPngs : List String)
    (decode : String → Option Frame) : List Frame :=
  let paths :=
    match orderFile with
    | some lines => parse_order lines
    | none => sortStrings folderPngs
  paths.filterMap decode

/-- C10: the sorted-glob fallback is taken only when `order.txt` does
not exist: with a manifest present the glob result is irrelevant, a
manifest of only blank/comment lines yields zero frames (no fallback),
and only without a manifest does the glob order feed the loader. -/
theorem order_manifest_controls_fallback (lines folderPngs morePngs : List String)
    (decode : String → Option Frame) :
    ((∀ l ∈ lines, pyStrip l = "" ∨ startsWithHash (pyStrip l) = true) →
      load_frames (some lines) folderPngs decode = []) ∧
    load_frames (some lines) folderPngs decode
      = load_frames (some lines) morePngs decode ∧
    load_frames none folderPngs decode
      = (sortStrings folderPngs).filterMap decode := by
  refine ⟨?_, rfl, rfl⟩
  intro h
  have hparse : parse_order lines = [] := by
    rw [parse_order, List.filterMap_eq_nil]
    intro l hl
    rcases h l hl with h1 | h1 <;> simp [h1]
  unfold load_frames
  simp only [hparse]
  rfl

/-- Witness for C10: a manifest of a comment, a blank and a
whitespace-only line yields no frames even though the folder has a
decodable png. -/
theorem order_manifest_controls_fallback_witness :
    load_frames (some ["# frame list", "", "   "]) ["a.png"]
      (fun _ => some 1) = [] ∧
    load_frames none ["a.png"] (fun _ => some 1) = [1] := by
  constructor
  · exact (order_manifest_controls_fallback ["# frame list", "", "   "]
      ["a.png"] [] (fun _ => some 1)).1 (by decide)
  · have h := (order_manifest_controls_fallback [] ["a.png"] []
      (fun _ => some 1)).2.2
    rw [h]
    rfl

/-! ## Batch mode (`process_folder`, `src/tools/blue_to_alpha.py`)

The loop body is `img = Image.open(p); key = auto_key(img);
out = blue_to_alpha(img, key); out.save(out_path)` — with no
`try`/`except`: an exception from `Image.open` propagates and aborts
the batch at that file.  `Image.open` is modelled as a partial function
from paths to images (`none` = the open/decode raises, carrying the
offending path).  `auto_key` is not modelled pointwise (its tie-break
rests on CPython set iteration order, see claim C4); since the batch
control flow never inspects the key, it enters as a parameter `keyOf`.
The result is the list of outputs written before the first failure
(relative path and transformed image) together with the failing path,
if any: on failure the remaining files are never processed and the
interpreter exits nonzero with the traceback. -/

/-- `process_folder` of the source: sequential loop, output per file,
first `Image.open` failure aborts the run. -/
def process_folder (openImage : String → Option (List (List RGBA)))
    (keyOf : List (List RGBA) → RGB) :
    List String → List (String × List (List RGBA)) × Option String
  | [] => ([], none)
  | p :: rest =>
    match openImage p with
    | none => ([], some p)
    | some img =>
      let result := process_folder openImage keyOf rest
      ((p, blue_to_alpha (keyOf img) img) :: result.1, result.2)

/-- Modelled from the spec for claim C3 (missing from the source): the
spec's *PerFileBatchFailure* policy — a decode failure "must be caught
and reported per-file (logged with the offending path), batch continues
with remaining files".  Returns all successful outputs and the list of
failing paths. -/
def process_folder_per_file (openImage : String → Option (List (List RGBA)))
    (keyOf : List (List RGBA) → RGB) :
    List String → List (String × List (List RGBA)) × List String
  | [] => ([], [])
  | p :: rest =>
    let result := process_folder_per_file openImage keyOf rest
    match openImage p with
    | none => (result.1, p :: result.2)
    | some img => ((p, blue_to_alpha (keyOf img) img) :: result.1, result.2)

/-- Counterexample for C3 as stated: with `bad.png` failing to decode
and `ok.png` decodable, the source's batch stops at `bad.png` with no
outputs at all — `ok.png` is never processed — whereas the claimed
per-file policy would still process `ok.png` and report `bad.png`. -/
theorem batch_continue_counterexample :
    process_folder
        (fun p => if p = "bad.png" then none else some [[⟨0, 0, 255, 255⟩]])
        (fun _ => ⟨0, 0, 255⟩) ["bad.png", "ok.png"]
      = ([], some "bad.png") ∧
    process_folder_per_file
        (fun p => if p = "bad.png" then none else some [[⟨0, 0, 255, 255⟩]])
        (fun _ => ⟨0, 0, 255⟩) ["bad.png", "ok.png"]
      = ([("ok.png", [[⟨0, 0, 255, 0⟩]])], ["bad.png"]) := by
  constructor
  · rfl
  · decide

/-- C3 (amended): in the source, one file's decode failure aborts the
batch at that file: every earlier file has been processed and written,
the error carries the offending path, and the remaining files are not
processed; only a batch where every file decodes runs to completion
over all files. -/
theorem process_folder_abort_on_failure
    (openImage : String → Option (List (List RGBA)))
    (keyOf : List (List RGBA) → RGB) (pre : List String) (bad : String)
    (rest : List String)
    (hpre : ∀ f ∈ pre, (openImage f).isSome = true)
    (hbad : openImage bad = none) :
    (process_folder openImage keyOf (pre ++ bad :: rest)).2 = some bad ∧
    (process_folder openImage keyOf (pre ++ bad :: rest)).1.map Prod.fst = pre ∧
    (∀ files : List String, (∀ f ∈ files, (openImage f).isSome = true) →
        (process_folder openImage keyOf files).2 = none ∧
        (process_folder openImage keyOf files).1.map Prod.fst = files) := by
  have hok : ∀ files : List String, (∀ f ∈ files, (openImage f).isSome = true) →
      (process_folder openImage keyOf files).2 = none ∧
      (process_folder openImage keyOf files).1.map Prod.fst = files := by
    intro files
    induction files with
    | nil => intro _; exact ⟨rfl, rfl⟩
    | cons p ps ih =>
      intro hall
      obtain ⟨img, himg⟩ := Option.isSome_iff_exists.mp (hall p (by simp))
      have hrest := ih fun f hf => hall f (by simp [hf])
      unfold process_folder
      rw [himg]
      exact ⟨hrest.1, by simp [hrest.2]⟩
  have habort : ∀ pre2 : List String, (∀ f ∈ pre2, (openImage f).isSome = true) →
      (process_folder openImage keyOf (pre2 ++ bad :: rest)).2 = some bad ∧
      (process_folder openImage keyOf (pre2 ++ bad :: rest)).1.map Prod.fst
        = pre2 := by
    intro pre2
    induction pre2 with
    | nil =>
      intro _
      rw [List.nil_append]
      unfold process_folder
      rw [hbad]
      exact ⟨rfl, rfl⟩
    | cons p ps ih =>
      intro hall
      obtain ⟨img, himg⟩ := Option.isSome_iff_exists.mp (hall p (by simp))
      have hih := ih fun f hf => hall f (by simp [hf])
      rw [List.cons_append]
      unfold process_folder
      rw [himg]
      exact ⟨hih.1, by simp [hih.2]⟩
  exact ⟨(habort pre hpre).1, (habort pre hpre).2, hok⟩

/-- Witness for C3 (amended): `ok.png` is written, the run aborts at
`bad.png`, and `later.png` is never reached. -/
theorem process_folder_abort_on_failure_witness :
    (process_folder
        (fun p => if p = "bad.png" then none else some [[⟨0, 0, 255, 255⟩]])
        (fun _ => ⟨0, 0, 255⟩) ["ok.png", "bad.png", "later.png"]).2
      = some "bad.png" ∧
    (process_folder
        (fun p => if p = "bad.png" then none else some [[⟨0, 0, 255, 255⟩]])
        (fun _ => ⟨0, 0, 255⟩) ["ok.png", "bad.png", "later.png"]).1.map Prod.fst
      = ["ok.png"] := by
  have h := process_folder_abort_on_failure
    (fun p => if p = "bad.png" then none else some [[⟨0, 0, 255, 255⟩]])
    (fun _ => ⟨0, 0, 255⟩) ["ok.png"] "bad.png" ["later.png"]
    (by decide) (by decide)
  exact ⟨h.1, h.2.1⟩

end BonziClone
